import Mathlib

/-!
# Verification of the startup-tracker filter/rank pipeline

Shallow embedding of `src/startup_tracker.py` (class `StartupTracker`).
Python floats are modelled by exact rationals (`ℚ`); Python's `float(...)`
literal parsing is modelled by `parseFloat` over the finite decimal-literal
grammar (optional sign, digits with optional fraction dot, optional
exponent) — the fragment exercised by the records of this program.
Records (`csv.DictReader` rows) are modelled as a structure of optional
string fields, `dict.get(k, d)` becoming `Option.getD`.
-/

namespace StartupTracker

/-- A raw CSV record: a mapping from the field names of interest to
optional text values (`none` models an absent key). -/
structure RawRecord where
  company_name : Option String := none
  funding_amount : Option String := none
  location : Option String := none
  status : Option String := none
  ipo_status : Option String := none
  funding_round : Option String := none
  description : Option String := none
  website : Option String := none
  founded_year : Option String := none
deriving DecidableEq, Repr

/-- An eligible record: the raw record plus the single field
`funding_amount_parsed` added by `filter_startups` (line 76). -/
structure EligibleRecord where
  raw : RawRecord
  funding_amount_parsed : String
deriving DecidableEq, Repr

/-- `s.replace(',', '').replace('$', '')` of line 55: both replacements
delete single characters, hence a filter. -/
def stripChars (s : String) : String :=
  ⟨s.data.filter (fun c => !(c == ',' || c == '$'))⟩

/-- Python `str.upper()` (ASCII range, as exercised here). -/
def upperStr (s : String) : String := ⟨s.data.map Char.toUpper⟩

/-- Python `str.lower()` (ASCII range, as exercised here). -/
def lowerStr (s : String) : String := ⟨s.data.map Char.toLower⟩

/-- Python `c in s` for a single character. -/
def hasChar (s : String) (c : Char) : Bool := s.data.any (fun d => d == c)

/-- Python `s.replace(c, '')` for a single character `c`. -/
def removeChar (s : String) (c : Char) : String :=
  ⟨s.data.filter (fun d => !(d == c))⟩

/-- Does `hay` begin with `needle`? -/
def leadsWith : List Char → List Char → Bool
  | [], _ => true
  | _ :: _, [] => false
  | c :: cs, h :: hs => c == h && leadsWith cs hs

/-- Occurrence search: does `needle` occur contiguously in `hay`?
Models Python's `needle in hay` on strings. -/
def containsSub (needle : List Char) : List Char → Bool
  | [] => leadsWith needle []
  | h :: t => leadsWith needle (h :: t) || containsSub needle t

/-- Python `needle in hay` on strings. -/
def substrB (needle hay : String) : Bool := containsSub needle.data hay.data

/-- Rational multiplication in an explicitly reduction-friendly form
(used so that concrete runs evaluate inside the kernel); equal to `*`
by `qmul_eq` below. -/
def qmul (a b : ℚ) : ℚ := mkRat (a.num * b.num) (a.den * b.den)

/-- Rational addition in an explicitly reduction-friendly form; equal to
`+` by `qadd_eq` below. -/
def qadd (a b : ℚ) : ℚ := mkRat (a.num * b.den + b.num * a.den) (a.den * b.den)

/-- All characters are decimal digits. -/
def allDigits (cs : List Char) : Bool := cs.all Char.isDigit

/-- Value of a big-endian decimal digit string. -/
def digitsVal (cs : List Char) : ℕ := cs.foldl (fun a c => 10 * a + (c.toNat - 48)) 0

/-- Strip one optional leading sign; returns (isNegative, rest). -/
def parseSign : List Char → Bool × List Char
  | '+' :: cs => (false, cs)
  | '-' :: cs => (true, cs)
  | cs => (false, cs)

/-- Unsigned mantissa: `digits`, `digits.digits`, `digits.` or `.digits`;
the value is integer part plus fractional digits over `10 ^ length`. -/
def parseUnsigned (cs : List Char) : Option ℚ :=
  let p := cs.span (fun c => !(c == '.'))
  match p.2 with
  | [] => if !p.1.isEmpty && allDigits p.1 then some ((digitsVal p.1 : ℚ)) else none
  | _ :: fp =>
      if allDigits p.1 && allDigits fp && (!p.1.isEmpty || !fp.isEmpty) then
        some (qadd (digitsVal p.1 : ℚ) (mkRat (digitsVal fp) (10 ^ fp.length)))
      else none

/-- Model of Python `float(s)` on finite decimal literals, with exact
rational semantics: optional sign, mantissa, optional `e`/`E` exponent
scaling by the corresponding power of ten. -/
def parseFloat (s : String) : Option ℚ :=
  let q := s.data.span (fun c => !(c == 'e' || c == 'E'))
  let sm := parseSign q.1
  match parseUnsigned sm.2 with
  | none => none
  | some m =>
      let mv : ℚ := if sm.1 then -m else m
      match q.2 with
      | [] => some mv
      | _ :: ex =>
          let se := parseSign ex
          if !se.2.isEmpty && allDigits se.2 then
            some (if se.1 then qmul mv (mkRat 1 (10 ^ digitsVal se.2))
                  else qmul mv (mkRat ((10 : ℤ) ^ digitsVal se.2) 1))
          else none

/-- Funding-text normalization of lines 55–63: strip `,` and `$`; if the
uppercased text contains `M`, drop the `M`s, parse, scale by 10^6; else if
it contains `B`, drop the `B`s, parse, scale by 10^9; else parse directly. -/
def normalizeFunding (s : String) : Option ℚ :=
  let cleaned := stripChars s
  let u := upperStr cleaned
  if hasChar u 'M' then (parseFloat (removeChar u 'M')).map (fun q => qmul q 1000000)
  else if hasChar u 'B' then (parseFloat (removeChar u 'B')).map (fun q => qmul q 1000000000)
  else parseFloat cleaned

/-- `self.min_funding` (line 13): $100M in base units. -/
def min_funding : ℚ := 100000000

/-- `self.target_regions` (lines 14–20). -/
def target_regions : List String :=
  ["usa", "united states", "us", "america",
   "europe", "uk", "united kingdom", "germany", "france",
   "spain", "italy", "netherlands", "sweden", "ireland",
   "belgium", "austria", "denmark", "finland", "norway",
   "switzerland", "portugal", "poland"]

/-- `startup.get('funding_amount', '0')` of line 55. -/
def fundingText (r : RawRecord) : String := r.funding_amount.getD "0"

/-- `funding >= self.min_funding` (line 70). -/
def meets_funding (f : ℚ) : Bool := decide (min_funding ≤ f)

/-- `any(region in location for region in self.target_regions)` (line 71),
with `location = startup.get('location', '').lower()` (line 65). -/
def meets_location (r : RawRecord) : Bool :=
  target_regions.any (fun region => substrB region (lowerStr (r.location.getD "")))

/-- `'active' in status or status == ''` (line 72), with
`status = startup.get('status', '').lower()` (line 66). -/
def meets_status (r : RawRecord) : Bool :=
  substrB "active" (lowerStr (r.status.getD "")) || (lowerStr (r.status.getD "") == "")

/-- `ipo_status not in ['ipo', 'public', 'listed']` (line 73), with
`ipo_status = startup.get('ipo_status', '').lower()` (line 67). -/
def not_ipod (r : RawRecord) : Bool :=
  !((["ipo", "public", "listed"] : List String).contains (lowerStr (r.ipo_status.getD "")))

/-- Conjunction of line 75: `meets_funding and meets_location and
meets_status and not_ipod`. -/
def meetsAll (r : RawRecord) (f : ℚ) : Bool :=
  meets_funding f && (meets_location r && (meets_status r && not_ipod r))

/-- Floor of a rational, computed by integer floor division (used only in
display formatting). -/
def ratFloor (q : ℚ) : ℤ := q.num.fdiv q.den

/-- Round a rational to the nearest integer, halves to even: the rounding
performed by Python's `format(x, ',.0f')` on the displayed value. Works on
integers only: `2 * (q - floor q)` is compared against `1` by comparing
`2 * (q.num - floor q * q.den)` against `q.den`. -/
def roundHalfEven (q : ℚ) : ℤ :=
  let n := ratFloor q
  let twice := 2 * (q.num - n * q.den)
  if twice < (q.den : ℤ) then n
  else if (q.den : ℤ) < twice then n + 1
  else if n % 2 = 0 then n else n + 1

/-- Insert `,` separators into a digit string given in reverse
(least-significant first); `i` counts digits already emitted. -/
def groupRev (i : ℕ) : List Char → List Char
  | [] => []
  | c :: cs =>
      if 0 < i && i % 3 == 0 then ',' :: c :: groupRev (i + 1) cs
      else c :: groupRev (i + 1) cs

/-- Thousands-separated decimal rendering of an integer. -/
def intWithCommas (n : ℤ) : String :=
  if n < 0 then "-" ++ ⟨(groupRev 0 ((Nat.toDigits 10 n.natAbs).reverse)).reverse⟩
  else ⟨(groupRev 0 ((Nat.toDigits 10 n.toNat).reverse)).reverse⟩

/-- `f"${funding:,.0f}"` of line 76: dollar sign, value rounded to whole
units (half to even), thousands separators. -/
def displayUSD (f : ℚ) : String := "$" ++ intWithCommas (roundHalfEven f)

/-- `filter_startups` (lines 42–84): one pass over the records. A record
whose funding text fails to parse raises `ValueError` inside the `try`,
is reported by the warning print of line 80 and skipped; the second
component collects those reported records. An eligible record is the raw
record plus the `funding_amount_parsed` display field (lines 75–77). -/
def filter_startups : List RawRecord → List EligibleRecord × List RawRecord
  | [] => ([], [])
  | r :: rest =>
      match normalizeFunding (fundingText r) with
      | none => ((filter_startups rest).1, r :: (filter_startups rest).2)
      | some f =>
          if meetsAll r f then
            ({ raw := r, funding_amount_parsed := displayUSD f } :: (filter_startups rest).1,
             (filter_startups rest).2)
          else filter_startups rest

/-- Sort key of lines 135–139:
`float(x.get('funding_amount_parsed', '$0').replace('$', '').replace(',', ''))`,
i.e. the funding value re-parsed from the stored display string. -/
def sortKey (e : EligibleRecord) : ℚ :=
  (parseFloat (stripChars e.funding_amount_parsed)).getD 0

/-- Stable descending insertion (element goes before the first entry with
key not larger than its own, hence after all earlier-input equals). -/
def insertDesc (x : EligibleRecord) : List EligibleRecord → List EligibleRecord
  | [] => [x]
  | y :: ys => if sortKey y ≤ sortKey x then x :: y :: ys else y :: insertDesc x ys

/-- `sorted(filtered_startups, key=..., reverse=True)` of lines 135–139:
a stable descending sort by `sortKey`, modelled as right-fold insertion
(characterised below by permutation, sortedness and tie preservation). -/
def sorted_startups (l : List EligibleRecord) : List EligibleRecord :=
  l.foldr insertDesc []

/-- Increment the count of `loc`, preserving first-occurrence order
(Python dict insertion order, lines 124–127). -/
def bumpTally (loc : String) : List (String × ℕ) → List (String × ℕ)
  | [] => [(loc, 1)]
  | (k, v) :: rest =>
      if k == loc then (k, v + 1) :: rest else (k, v) :: bumpTally loc rest

/-- Location tally of lines 124–127: counts per verbatim location string,
with `'Unknown'` for an absent location field. -/
def locationTally (l : List EligibleRecord) : List (String × ℕ) :=
  l.foldl (fun acc e => bumpTally (e.raw.location.getD "Unknown") acc) []

/-- One output row of `export_to_csv` (lines 96–105): the fixed column
order, with `restval ''` for fields absent from the record. -/
def csvRow (e : EligibleRecord) : List String :=
  [e.raw.company_name.getD "", e.funding_amount_parsed, e.raw.location.getD "",
   e.raw.status.getD "", e.raw.ipo_status.getD "", e.raw.funding_round.getD "",
   e.raw.description.getD "", e.raw.website.getD "", e.raw.founded_year.getD ""]

/-- `export_to_csv` (lines 86–108): refuses an empty list (returns
`False`, line 90), otherwise writes the header and one data row per
record; the model returns the data rows. -/
def export_to_csv (l : List EligibleRecord) : Option (List (List String)) :=
  if l.isEmpty then none else some (l.map csvRow)

/-- The full core pipeline on one input: filter (with its skip report),
tally, ranking, export. -/
def pipeline (raws : List RawRecord) :
    (List EligibleRecord × List RawRecord) × List (String × ℕ) ×
      List EligibleRecord × Option (List (List String)) :=
  (filter_startups raws,
   locationTally (filter_startups raws).1,
   sorted_startups (filter_startups raws).1,
   export_to_csv (filter_startups raws).1)

/-- The FundingAmount (spec §3) resolved for an eligible record: the
Normalizer applied to its raw funding text. -/
def fundingAmountOf (e : EligibleRecord) : ℚ :=
  (normalizeFunding (fundingText e.raw)).getD 0

/-- The eligibility test as the claim words it: funding text parses,
normalized amount at least 100,000,000, case-folded location has some
target-region keyword as a substring, case-folded status contains
`"active"` or is empty, case-folded ipo_status differs from `"ipo"`,
`"public"` and `"listed"`. Stated for comparison with the source's
`filter_startups`. -/
def claimEligible (r : RawRecord) : Bool :=
  match normalizeFunding (r.funding_amount.getD "0") with
  | none => false
  | some f =>
      decide ((100000000 : ℚ) ≤ f) &&
      (target_regions.any
          (fun region => decide (region.data <:+: (lowerStr (r.location.getD "")).data)) &&
        ((decide ("active".data <:+: (lowerStr (r.status.getD "")).data) ||
            decide (lowerStr (r.status.getD "") = "")) &&
          decide (lowerStr (r.ipo_status.getD "") ∉ (["ipo", "public", "listed"] : List String))))

/-- A record exactly at the funding threshold. -/
def rec100 : RawRecord :=
  { company_name := some "AtThreshold", funding_amount := some "100000000",
    location := some "Austin, USA", status := some "active", ipo_status := some "private" }

/-- A record just below the funding threshold. -/
def rec99 : RawRecord :=
  { company_name := some "BelowThreshold", funding_amount := some "99000000",
    location := some "Austin, USA", status := some "active", ipo_status := some "private" }

/-- Eligible record with fractional funding 100000000.6 (rounds up in the
display). -/
def cexA : RawRecord :=
  { company_name := some "A", funding_amount := some "100000000.6",
    location := some "usa", status := some "active", ipo_status := some "private" }

/-- Eligible record with fractional funding 100000001.4 (rounds down in
the display, to the same displayed value as `cexA`). -/
def cexB : RawRecord :=
  { company_name := some "B", funding_amount := some "100000001.4",
    location := some "usa", status := some "active", ipo_status := some "private" }

/-- A record whose funding text is outside the accepted grammar. -/
def badRec : RawRecord :=
  { company_name := some "Bad", funding_amount := some "abc",
    location := some "usa", status := some "active", ipo_status := some "private" }

/-- A concrete eligible record used to exercise the exporter. -/
def sampleEligible : EligibleRecord :=
  { raw := { company_name := some "S" }, funding_amount_parsed := "$150,000,000" }

/-- An eligible record as the filter produces it. -/
def recW : RawRecord :=
  { company_name := some "W", funding_amount := some "150M",
    location := some "Berlin, Germany", status := some "active", ipo_status := some "private" }

/-- A record with no funding_amount field at all. -/
def noFundRec : RawRecord :=
  { company_name := some "NoFunding", location := some "Paris, France",
    status := some "active", ipo_status := some "private" }

/-! ## Correctness of the substring search -/

theorem bool_eq_decide {b : Bool} {p : Prop} [Decidable p] (h : b = true ↔ p) :
    b = decide p := by
  cases b with
  | true => simp [h.mp rfl]
  | false =>
      have hp : ¬ p := fun hp => absurd (h.mpr hp) (by simp)
      simp [hp]

theorem leadsWith_iff : ∀ n h : List Char, leadsWith n h = true ↔ n <+: h
  | [], h => by simp [leadsWith]
  | c :: cs, [] => by simp [leadsWith]
  | c :: cs, h :: hs => by
      simp [leadsWith, List.cons_prefix_cons, leadsWith_iff cs hs]

theorem containsSub_iff : ∀ (n h : List Char), containsSub n h = true ↔ n <:+: h
  | n, [] => by cases n <;> simp [containsSub, leadsWith]
  | n, h :: t => by
      simp [containsSub, leadsWith_iff, containsSub_iff n t, List.infix_cons_iff]

theorem substrB_eq (n h : String) : substrB n h = decide (n.data <:+: h.data) :=
  bool_eq_decide (containsSub_iff n.data h.data)

/-! ## Arithmetic bridges -/

theorem qmul_eq (a b : ℚ) : qmul a b = a * b := by
  rw [qmul, Rat.mkRat_eq_div]
  push_cast
  rw [← div_mul_div_comm, Rat.num_div_den, Rat.num_div_den]

theorem qadd_eq (a b : ℚ) : qadd a b = a + b := by
  rw [qadd, Rat.mkRat_eq_div]
  have ha : ((a.den : ℚ)) ≠ 0 := Nat.cast_ne_zero.mpr a.den_nz
  have hb : ((b.den : ℚ)) ≠ 0 := Nat.cast_ne_zero.mpr b.den_nz
  push_cast
  conv_rhs => rw [← Rat.num_div_den a, ← Rat.num_div_den b]
  rw [div_add_div _ _ ha hb]
  ring_nf

/-! ## Characterisation of the filter -/

theorem beq_str (a b : String) : (a == b) = decide (a = b) :=
  bool_eq_decide (by simp)

theorem contains_str (l : List String) (a : String) :
    l.contains a = decide (a ∈ l) :=
  bool_eq_decide (by simp [List.contains, List.elem_iff])

theorem meets_funding_eq (f : ℚ) :
    meets_funding f = decide ((100000000 : ℚ) ≤ f) := rfl

theorem meets_location_eq (r : RawRecord) :
    meets_location r = target_regions.any
      (fun region => decide (region.data <:+: (lowerStr (r.location.getD "")).data)) := by
  rw [meets_location]
  simp only [substrB_eq]

theorem meets_status_eq (r : RawRecord) :
    meets_status r =
      (decide ("active".data <:+: (lowerStr (r.status.getD "")).data) ||
        decide (lowerStr (r.status.getD "") = "")) := by
  rw [meets_status, substrB_eq, beq_str]

theorem not_ipod_eq (r : RawRecord) :
    not_ipod r =
      decide (lowerStr (r.ipo_status.getD "") ∉ (["ipo", "public", "listed"] : List String)) := by
  rw [not_ipod, contains_str, ← decide_not]

theorem claimEligible_eq (r : RawRecord) :
    claimEligible r =
      match normalizeFunding (fundingText r) with
      | none => false
      | some f => meetsAll r f := by
  rw [claimEligible]
  cases hn : normalizeFunding (fundingText r) with
  | none => rw [show r.funding_amount.getD "0" = fundingText r from rfl, hn]
  | some f =>
      rw [show r.funding_amount.getD "0" = fundingText r from rfl, hn]
      show _ = meetsAll r f
      rw [meetsAll, meets_funding_eq, meets_location_eq, meets_status_eq, not_ipod_eq]

theorem fs_nil : filter_startups [] = ([], []) := rfl

theorem fs_cons_none (r : RawRecord) (rest : List RawRecord)
    (h : normalizeFunding (fundingText r) = none) :
    filter_startups (r :: rest) =
      ((filter_startups rest).1, r :: (filter_startups rest).2) := by
  rw [show filter_startups (r :: rest) =
        match normalizeFunding (fundingText r) with
        | none => ((filter_startups rest).1, r :: (filter_startups rest).2)
        | some f =>
            if meetsAll r f then
              ({ raw := r, funding_amount_parsed := displayUSD f } :: (filter_startups rest).1,
               (filter_startups rest).2)
            else filter_startups rest from rfl, h]

theorem fs_cons_some (r : RawRecord) (rest : List RawRecord) (f : ℚ)
    (h : normalizeFunding (fundingText r) = some f) :
    filter_startups (r :: rest) =
      if meetsAll r f then
        ({ raw := r, funding_amount_parsed := displayUSD f } :: (filter_startups rest).1,
         (filter_startups rest).2)
      else filter_startups rest := by
  rw [show filter_startups (r :: rest) =
        match normalizeFunding (fundingText r) with
        | none => ((filter_startups rest).1, r :: (filter_startups rest).2)
        | some f =>
            if meetsAll r f then
              ({ raw := r, funding_amount_parsed := displayUSD f } :: (filter_startups rest).1,
               (filter_startups rest).2)
            else filter_startups rest from rfl, h]

theorem fs_append (xs ys : List RawRecord) :
    filter_startups (xs ++ ys) =
      ((filter_startups xs).1 ++ (filter_startups ys).1,
       (filter_startups xs).2 ++ (filter_startups ys).2) := by
  induction xs with
  | nil => simp [fs_nil]
  | cons r rest ih =>
      rw [List.cons_append]
      cases hn : normalizeFunding (fundingText r) with
      | none =>
          rw [fs_cons_none r (rest ++ ys) hn, fs_cons_none r rest hn]
          simp [ih]
      | some f =>
          rw [fs_cons_some r (rest ++ ys) f hn, fs_cons_some r rest f hn]
          by_cases hm : meetsAll r f
          · simp [hm, ih]
          · simp [hm, ih]

theorem fs_map_raw (raws : List RawRecord) :
    ((filter_startups raws).1).map (fun e => e.raw) = raws.filter claimEligible := by
  induction raws with
  | nil => rfl
  | cons r rest ih =>
      rw [List.filter_cons]
      cases hn : normalizeFunding (fundingText r) with
      | none =>
          have hc : claimEligible r = false := by rw [claimEligible_eq, hn]
          rw [fs_cons_none r rest hn]
          simp [hc, ih]
      | some f =>
          have hc : claimEligible r = meetsAll r f := by rw [claimEligible_eq, hn]
          rw [fs_cons_some r rest f hn]
          by_cases hm : meetsAll r f
          · simp [hc, hm, ih]
          · simp [hc, hm, ih]

theorem fs_mem (raws : List RawRecord) (e : EligibleRecord)
    (he : e ∈ (filter_startups raws).1) :
    e.raw ∈ raws ∧ ∃ f, normalizeFunding (fundingText e.raw) = some f ∧
      e.funding_amount_parsed = displayUSD f := by
  induction raws with
  | nil => simp [fs_nil] at he
  | cons r rest ih =>
      cases hn : normalizeFunding (fundingText r) with
      | none =>
          rw [fs_cons_none r rest hn] at he
          rcases ih he with ⟨h1, h2⟩
          exact ⟨List.mem_cons_of_mem r h1, h2⟩
      | some f =>
          rw [fs_cons_some r rest f hn] at he
          by_cases hm : meetsAll r f
          · rw [if_pos hm] at he
            rcases List.mem_cons.mp he with rfl | hmem
            · exact ⟨List.mem_cons_self _ _, f, hn, rfl⟩
            · rcases ih hmem with ⟨h1, h2⟩
              exact ⟨List.mem_cons_of_mem r h1, h2⟩
          · rw [if_neg hm] at he
            rcases ih he with ⟨h1, h2⟩
            exact ⟨List.mem_cons_of_mem r h1, h2⟩

/-! ## The stable descending sort -/

theorem perm_insertDesc (x : EligibleRecord) (l : List EligibleRecord) :
    List.Perm (insertDesc x l) (x :: l) := by
  induction l with
  | nil => exact List.Perm.refl _
  | cons y ys ih =>
      by_cases h : sortKey y ≤ sortKey x
      · simp [insertDesc, h]
      · simp only [insertDesc, if_neg h]
        exact (ih.cons y).trans (List.Perm.swap x y ys)

theorem mem_insertDesc (z x : EligibleRecord) (l : List EligibleRecord) :
    z ∈ insertDesc x l ↔ z = x ∨ z ∈ l :=
  (perm_insertDesc x l).mem_iff.trans List.mem_cons

theorem sorted_insertDesc (x : EligibleRecord) (l : List EligibleRecord)
    (h : l.Sorted (fun a b => sortKey b ≤ sortKey a)) :
    (insertDesc x l).Sorted (fun a b => sortKey b ≤ sortKey a) := by
  induction l with
  | nil => simp [insertDesc]
  | cons y ys ih =>
      rw [List.sorted_cons] at h
      by_cases hc : sortKey y ≤ sortKey x
      · simp only [insertDesc, if_pos hc, List.sorted_cons]
        refine ⟨?_, ?_, h.2⟩
        · intro b hb
          rcases List.mem_cons.mp hb with rfl | hb
          · exact hc
          · exact le_trans (h.1 b hb) hc
        · exact h.1
      · simp only [insertDesc, if_neg hc, List.sorted_cons]
        refine ⟨?_, ih h.2⟩
        intro b hb
        rcases (mem_insertDesc b x ys).mp hb with rfl | hb
        · exact le_of_lt (lt_of_not_le hc)
        · exact h.1 b hb

theorem filter_insertDesc (x : EligibleRecord) (l : List EligibleRecord) (v : ℚ) :
    (insertDesc x l).filter (fun e => decide (sortKey e = v)) =
      (x :: l).filter (fun e => decide (sortKey e = v)) := by
  induction l with
  | nil => rfl
  | cons y ys ih =>
      by_cases hc : sortKey y ≤ sortKey x
      · simp only [insertDesc, if_pos hc]
      · simp only [insertDesc, if_neg hc]
        simp only [List.filter_cons, ih]
        by_cases hy : sortKey y = v
        · by_cases hx : sortKey x = v
          · exact absurd (le_of_eq (hy.trans hx.symm)) hc
          · simp [hy, hx]
        · by_cases hx : sortKey x = v
          · simp [hy, hx]
          · simp [hy, hx]

theorem sorted_startups_cons (x : EligibleRecord) (xs : List EligibleRecord) :
    sorted_startups (x :: xs) = insertDesc x (sorted_startups xs) := rfl

theorem sorted_startups_perm (l : List EligibleRecord) : List.Perm (sorted_startups l) l := by
  induction l with
  | nil => exact List.Perm.refl _
  | cons x xs ih =>
      rw [sorted_startups_cons]
      exact (perm_insertDesc x (sorted_startups xs)).trans (ih.cons x)

theorem sorted_startups_sorted (l : List EligibleRecord) :
    (sorted_startups l).Sorted (fun a b => sortKey b ≤ sortKey a) := by
  induction l with
  | nil => simp [sorted_startups]
  | cons x xs ih => exact sorted_insertDesc x (sorted_startups xs) ih

theorem sorted_startups_stable (l : List EligibleRecord) (v : ℚ) :
    (sorted_startups l).filter (fun e => decide (sortKey e = v)) =
      l.filter (fun e => decide (sortKey e = v)) := by
  induction l with
  | nil => rfl
  | cons x xs ih =>
      rw [sorted_startups_cons, filter_insertDesc, List.filter_cons, ih]
      conv_rhs => rw [List.filter_cons]

/-! ## The claims -/

/-- Claim C1: the Eligibility Filter returns exactly those records, in
input order, whose funding text parses and that satisfy all four
predicates (funding at least the inclusive 100,000,000 threshold —
100000000 passes, 99000000 fails — region substring in the case-folded
location, "active" substring or empty status, ipo_status outside
{ipo, public, listed}). -/
theorem spec_C1 :
    (∀ raws : List RawRecord,
        ((filter_startups raws).1).map (fun e => e.raw) = raws.filter claimEligible) ∧
    ((filter_startups [rec100]).1).map (fun e => e.raw) = [rec100] ∧
    (filter_startups [rec99]).1 = [] :=
  ⟨fs_map_raw, by decide, by decide⟩

/-- Claim C2: the Normalizer strips commas and dollar signs, scales an
M-suffixed value by one million and a B-suffixed value by one billion,
parses plain text directly; 150000000, 150M and $2.3B evaluate as stated,
and suffix-free, separator-free text is parsed exactly as a float
literal. -/
theorem spec_C2 :
    normalizeFunding "150000000" = some 150000000 ∧
    normalizeFunding "150M" = some 150000000 ∧
    normalizeFunding "$2.3B" = some 2300000000 ∧
    ∀ s : String, stripChars s = s →
      hasChar (upperStr s) 'M' = false → hasChar (upperStr s) 'B' = false →
      normalizeFunding s = parseFloat s := by
  refine ⟨by decide, by decide, by decide, ?_⟩
  intro s h1 h2 h3
  simp [normalizeFunding, h1, h2, h3]

theorem spec_C2_witness :
    (stripChars "123.45" = "123.45" ∧ hasChar (upperStr "123.45") 'M' = false ∧
      hasChar (upperStr "123.45") 'B' = false) ∧
    normalizeFunding "123.45" = parseFloat "123.45" :=
  ⟨⟨by decide, by decide, by decide⟩,
    spec_C2.2.2.2 "123.45" (by decide) (by decide) (by decide)⟩

/-- Claim C3 as stated is false: the ranking of lines 135-139 sorts by the
funding value re-parsed from the formatted display string, which rounds
to whole units. Records `cexA` (FundingAmount 100000000.6) and `cexB`
(FundingAmount 100000001.4) both display as $100,000,001, so the ranking
keeps input order [A, B] although B's FundingAmount is strictly larger:
a record with strictly smaller FundingAmount comes first. -/
theorem spec_C3_counterexample :
    sorted_startups (filter_startups [cexA, cexB]).1 = (filter_startups [cexA, cexB]).1 ∧
    ((filter_startups [cexA, cexB]).1).map fundingAmountOf =
      [mkRat 500000003 5, mkRat 500000007 5] ∧
    mkRat 500000003 5 < mkRat 500000007 5 :=
  ⟨by decide, by decide, by decide⟩

/-- Claim C3, amended: the Ranking is a stable descending sort by the
funding value re-parsed from the stored display string (`sortKey`, the
FundingAmount as rounded by the display formatting): it is a permutation
of its input, sorted so that no record precedes one with strictly larger
re-parsed display value, and records with equal re-parsed display value
keep their original relative input order. -/
theorem spec_C3 :
    ∀ l : List EligibleRecord,
      List.Perm (sorted_startups l) l ∧
      (sorted_startups l).Sorted (fun a b => sortKey b ≤ sortKey a) ∧
      ∀ v : ℚ, (sorted_startups l).filter (fun e => decide (sortKey e = v)) =
        l.filter (fun e => decide (sortKey e = v)) :=
  fun l => ⟨sorted_startups_perm l, sorted_startups_sorted l, sorted_startups_stable l⟩

/-- Claim C4: when the cleaned funding text contains both M and B
(case-insensitive), the M branch is taken — the result is the parse of
the text with the M letters removed, scaled by one million (the B branch
is never consulted). -/
theorem spec_C4 (s : String)
    (hm : hasChar (upperStr (stripChars s)) 'M' = true)
    (hb : hasChar (upperStr (stripChars s)) 'B' = true) :
    normalizeFunding s =
      (parseFloat (removeChar (upperStr (stripChars s)) 'M')).map (fun q => q * 1000000) := by
  have hfun : (fun q : ℚ => qmul q 1000000) = fun q => q * 1000000 :=
    funext fun q => qmul_eq q 1000000
  simp [normalizeFunding, hm, hfun]

theorem spec_C4_witness :
    (hasChar (upperStr (stripChars "5MB")) 'M' = true ∧
      hasChar (upperStr (stripChars "5MB")) 'B' = true) ∧
    normalizeFunding "5MB" =
      (parseFloat (removeChar (upperStr (stripChars "5MB")) 'M')).map (fun q => q * 1000000) :=
  ⟨⟨by decide, by decide⟩, spec_C4 "5MB" (by decide) (by decide)⟩

/-- Claim C5: a record whose funding text is not in the accepted grammar
is excluded from the eligible output, appears in the skip report, and the
remaining records are processed exactly as if it were absent — the
parse failure never aborts the pipeline. -/
theorem spec_C5 (xs ys : List RawRecord) (r : RawRecord)
    (h : normalizeFunding (fundingText r) = none) :
    (filter_startups (xs ++ r :: ys)).1 = (filter_startups (xs ++ ys)).1 ∧
    (filter_startups (xs ++ r :: ys)).2 =
      (filter_startups xs).2 ++ r :: (filter_startups ys).2 := by
  rw [fs_append xs (r :: ys), fs_append xs ys, fs_cons_none r ys h]
  exact ⟨rfl, rfl⟩

theorem spec_C5_witness :
    normalizeFunding (fundingText badRec) = none ∧
    (filter_startups ([] ++ badRec :: [])).1 = (filter_startups ([] ++ [])).1 ∧
    (filter_startups ([] ++ badRec :: [])).2 =
      (filter_startups []).2 ++ badRec :: (filter_startups []).2 :=
  ⟨by decide, spec_C5 [] [] badRec (by decide)⟩

/-- Claim C6: the status predicate is literal substring containment of
"active" in the case-folded status, with empty or absent status eligible;
in particular "" and absent status pass, "Active, hiring" passes, and
"inactive" passes because "active" is a substring of "inactive". -/
theorem spec_C6 :
    (∀ r : RawRecord, meets_status r =
        (decide ("active".data <:+: (lowerStr (r.status.getD "")).data) ||
          decide (lowerStr (r.status.getD "") = ""))) ∧
    meets_status { status := some "" } = true ∧
    meets_status { status := none } = true ∧
    meets_status { status := some "Active, hiring" } = true ∧
    meets_status { status := some "inactive" } = true ∧
    "active".data <:+: "inactive".data :=
  ⟨meets_status_eq, by decide, by decide, by decide, by decide, by decide⟩

/-- Claim C7: for a non-empty list of eligible records the exporter
succeeds and writes exactly one data row per record. -/
theorem spec_C7 (l : List EligibleRecord) (h : l ≠ []) :
    ∃ rows, export_to_csv l = some rows ∧ rows.length = l.length := by
  have hne : l.isEmpty = false := by
    cases l with
    | nil => exact absurd rfl h
    | cons a as => rfl
  refine ⟨l.map csvRow, ?_, by simp⟩
  simp [export_to_csv, hne]

theorem spec_C7_witness :
    [sampleEligible] ≠ [] ∧
    ∃ rows, export_to_csv [sampleEligible] = some rows ∧
      rows.length = [sampleEligible].length :=
  ⟨by decide, spec_C7 [sampleEligible] (by decide)⟩

/-- Claim C8: ranking only permutes eligible records (each survives
unchanged), and every eligible record is its source raw record augmented
with exactly the one `funding_amount_parsed` field, holding the resolved
funding display value. -/
theorem spec_C8 :
    (∀ l : List EligibleRecord, List.Perm (sorted_startups l) l) ∧
    ∀ (raws : List RawRecord) (e : EligibleRecord), e ∈ (filter_startups raws).1 →
      e.raw ∈ raws ∧ ∃ f, normalizeFunding (fundingText e.raw) = some f ∧
        e.funding_amount_parsed = displayUSD f :=
  ⟨sorted_startups_perm, fs_mem⟩

theorem spec_C8_witness :
    ({ raw := recW, funding_amount_parsed := "$150,000,000" } : EligibleRecord) ∈
      (filter_startups [recW]).1 ∧
    (recW ∈ [recW] ∧ ∃ f, normalizeFunding (fundingText recW) = some f ∧
      ("$150,000,000" : String) = displayUSD f) :=
  ⟨by decide,
    spec_C8.2 [recW] { raw := recW, funding_amount_parsed := "$150,000,000" } (by decide)⟩

/-- Claim C9: the pipeline is deterministic — on equal inputs the filter
output, skip report, tally, ranking and export coincide. -/
theorem spec_C9 (raws₁ raws₂ : List RawRecord) (h : raws₁ = raws₂) :
    pipeline raws₁ = pipeline raws₂ := by rw [h]

theorem spec_C9_witness :
    ([] : List RawRecord) = [] ∧ pipeline [] = pipeline [] :=
  ⟨rfl, spec_C9 [] [] rfl⟩

/-- Claim C10: a record with no funding_amount field gets the default
text "0", which parses to 0, so the record is excluded by the funding
threshold — it neither survives nor enters the parse-failure skip
report. -/
theorem spec_C10 (xs ys : List RawRecord) (r : RawRecord)
    (h : r.funding_amount = none) :
    normalizeFunding (fundingText r) = some 0 ∧
    filter_startups (xs ++ r :: ys) = filter_startups (xs ++ ys) := by
  have hf : fundingText r = "0" := by rw [fundingText, h]; rfl
  have hn : normalizeFunding (fundingText r) = some 0 := by rw [hf]; decide
  refine ⟨hn, ?_⟩
  have hm : meetsAll r 0 = false := by
    rw [meetsAll, show meets_funding 0 = false from by decide, Bool.false_and]
  rw [fs_append xs (r :: ys), fs_append xs ys, fs_cons_some r ys 0 hn, hm]
  simp

theorem spec_C10_witness :
    noFundRec.funding_amount = none ∧
    normalizeFunding (fundingText noFundRec) = some 0 ∧
    filter_startups ([] ++ noFundRec :: []) = filter_startups ([] ++ []) :=
  ⟨rfl, spec_C10 [] [] noFundRec rfl⟩

end StartupTracker
